import Mathlib

/-!
Verification of `shopify_richtext_converter` (`converter.py`) against its
natural-language specification.

The converter operates on the parse tree produced by an external lenient HTML
parser (BeautifulSoup).  We embed that parse tree as `HtmlNode` (raw text
nodes vs. element nodes with a name, attributes and ordered children) and the
converter's output — Python dicts conforming to Shopify's rich-text JSON
schema — as the JSON value type `JVal`, so that "which keys are present in the
dict, in which order" is directly representable.

The parser itself is an external collaborator; `html_to_richtext` below takes
the parsing step as a function argument `parse : String → List HtmlNode`
standing for "parse with BeautifulSoup, then take `soup.body.contents` if a
body is present, else `soup.contents`" (converter.py line 118).
-/

namespace ShopifyRichtext

/-- A node of the HTML parse tree handed to the converter: either raw text
(`NavigableString`) or an element (`Tag`) with a tag name, attributes and
ordered children (`Tag.contents`). -/
inductive HtmlNode where
  | text (s : String)
  | elem (name : String) (attrs : List (String × String)) (children : List HtmlNode)

/-- A JSON-like value: the embedding of the Python dicts / lists / strings /
ints / bools / None that `converter.py` builds.  `obj` keeps the key-value
pairs in insertion order, exactly as a Python dict does. -/
inductive JVal where
  | str (s : String)
  | num (n : Nat)
  | bool (b : Bool)
  | null
  | obj (fields : List (String × JVal))
  | arr (elems : List JVal)

mutual

/-- Decidable equality for `JVal` (a nested inductive, so the instance is
written by hand, by structural recursion so that `decide` can evaluate it). -/
def jvalDecEq : (a b : JVal) → Decidable (a = b)
  | JVal.str a, JVal.str b =>
      match String.decEq a b with
      | isTrue h => isTrue (by rw [h])
      | isFalse h => isFalse (fun e => h (JVal.str.inj e))
  | JVal.str _, JVal.num _ => isFalse (fun e => JVal.noConfusion e)
  | JVal.str _, JVal.bool _ => isFalse (fun e => JVal.noConfusion e)
  | JVal.str _, JVal.null => isFalse (fun e => JVal.noConfusion e)
  | JVal.str _, JVal.obj _ => isFalse (fun e => JVal.noConfusion e)
  | JVal.str _, JVal.arr _ => isFalse (fun e => JVal.noConfusion e)
  | JVal.num _, JVal.str _ => isFalse (fun e => JVal.noConfusion e)
  | JVal.num a, JVal.num b =>
      match Nat.decEq a b with
      | isTrue h => isTrue (by rw [h])
      | isFalse h => isFalse (fun e => h (JVal.num.inj e))
  | JVal.num _, JVal.bool _ => isFalse (fun e => JVal.noConfusion e)
  | JVal.num _, JVal.null => isFalse (fun e => JVal.noConfusion e)
  | JVal.num _, JVal.obj _ => isFalse (fun e => JVal.noConfusion e)
  | JVal.num _, JVal.arr _ => isFalse (fun e => JVal.noConfusion e)
  | JVal.bool _, JVal.str _ => isFalse (fun e => JVal.noConfusion e)
  | JVal.bool _, JVal.num _ => isFalse (fun e => JVal.noConfusion e)
  | JVal.bool a, JVal.bool b =>
      match Bool.decEq a b with
      | isTrue h => isTrue (by rw [h])
      | isFalse h => isFalse (fun e => h (JVal.bool.inj e))
  | JVal.bool _, JVal.null => isFalse (fun e => JVal.noConfusion e)
  | JVal.bool _, JVal.obj _ => isFalse (fun e => JVal.noConfusion e)
  | JVal.bool _, JVal.arr _ => isFalse (fun e => JVal.noConfusion e)
  | JVal.null, JVal.str _ => isFalse (fun e => JVal.noConfusion e)
  | JVal.null, JVal.num _ => isFalse (fun e => JVal.noConfusion e)
  | JVal.null, JVal.bool _ => isFalse (fun e => JVal.noConfusion e)
  | JVal.null, JVal.null => isTrue rfl
  | JVal.null, JVal.obj _ => isFalse (fun e => JVal.noConfusion e)
  | JVal.null, JVal.arr _ => isFalse (fun e => JVal.noConfusion e)
  | JVal.obj _, JVal.str _ => isFalse (fun e => JVal.noConfusion e)
  | JVal.obj _, JVal.num _ => isFalse (fun e => JVal.noConfusion e)
  | JVal.obj _, JVal.bool _ => isFalse (fun e => JVal.noConfusion e)
  | JVal.obj _, JVal.null => isFalse (fun e => JVal.noConfusion e)
  | JVal.obj a, JVal.obj b =>
      match jvalFieldsDecEq a b with
      | isTrue h => isTrue (by rw [h])
      | isFalse h => isFalse (fun e => h (JVal.obj.inj e))
  | JVal.obj _, JVal.arr _ => isFalse (fun e => JVal.noConfusion e)
  | JVal.arr _, JVal.str _ => isFalse (fun e => JVal.noConfusion e)
  | JVal.arr _, JVal.num _ => isFalse (fun e => JVal.noConfusion e)
  | JVal.arr _, JVal.bool _ => isFalse (fun e => JVal.noConfusion e)
  | JVal.arr _, JVal.null => isFalse (fun e => JVal.noConfusion e)
  | JVal.arr _, JVal.obj _ => isFalse (fun e => JVal.noConfusion e)
  | JVal.arr a, JVal.arr b =>
      match jvalListDecEq a b with
      | isTrue h => isTrue (by rw [h])
      | isFalse h => isFalse (fun e => h (JVal.arr.inj e))
termination_by structural a => a

/-- Decidable equality for ordered field lists. -/
def jvalFieldsDecEq : (a b : List (String × JVal)) → Decidable (a = b)
  | [], [] => isTrue rfl
  | [], _ :: _ => isFalse (fun e => List.noConfusion e)
  | _ :: _, [] => isFalse (fun e => List.noConfusion e)
  | (k1, v1) :: r1, (k2, v2) :: r2 =>
      match String.decEq k1 k2, jvalDecEq v1 v2, jvalFieldsDecEq r1 r2 with
      | isTrue hk, isTrue hv, isTrue hr => isTrue (by rw [hk, hv, hr])
      | isFalse hk, _, _ =>
          isFalse (by intro e; rw [List.cons.injEq, Prod.mk.injEq] at e; exact hk e.1.1)
      | _, isFalse hv, _ =>
          isFalse (by intro e; rw [List.cons.injEq, Prod.mk.injEq] at e; exact hv e.1.2)
      | _, _, isFalse hr =>
          isFalse (by intro e; rw [List.cons.injEq] at e; exact hr e.2)
termination_by structural a => a

/-- Decidable equality for value lists. -/
def jvalListDecEq : (a b : List JVal) → Decidable (a = b)
  | [], [] => isTrue rfl
  | [], _ :: _ => isFalse (fun e => List.noConfusion e)
  | _ :: _, [] => isFalse (fun e => List.noConfusion e)
  | v1 :: r1, v2 :: r2 =>
      match jvalDecEq v1 v2, jvalListDecEq r1 r2 with
      | isTrue hv, isTrue hr => isTrue (by rw [hv, hr])
      | isFalse hv, _ =>
          isFalse (by intro e; rw [List.cons.injEq] at e; exact hv e.1)
      | _, isFalse hr =>
          isFalse (by intro e; rw [List.cons.injEq] at e; exact hr e.2)
termination_by structural a => a

end

instance : DecidableEq JVal := jvalDecEq

/-- Whitespace as recognized by Python's `str.strip()` with no arguments,
i.e. the code points for which `str.isspace()` holds: the six ASCII
whitespace characters, the C1 separators `\x1c`-`\x1f` and `\x85` (NEL),
no-break space U+00A0, U+1680, the U+2000-U+200A spaces, the line and
paragraph separators U+2028/U+2029, U+202F, U+205F and U+3000. -/
def pyIsSpace (c : Char) : Bool :=
  c = ' ' || c = '\t' || c = '\n' || c = '\r' || c = '\x0b' || c = '\x0c' ||
  c = '\x1c' || c = '\x1d' || c = '\x1e' || c = '\x1f' || c = '\x85' ||
  c = '\xa0' || c = '\u1680' || ('\u2000' ≤ c && c ≤ '\u200A') ||
  c = '\u2028' || c = '\u2029' || c = '\u202F' || c = '\u205F' || c = '\u3000'

/-- `not s.strip()` in Python: the string is empty or entirely whitespace. -/
def pyStripEmpty (s : String) : Bool :=
  s.data.all pyIsSpace

/-- Lowercase one ASCII letter (the embedding of Python's `str.lower()`
restricted to the ASCII range, which covers all HTML tag names). -/
def lowerChar (c : Char) : Char :=
  if 'A' ≤ c && c ≤ 'Z' then Char.ofNat (c.toNat + 32) else c

/-- `name.lower()`: the tag name lowercased characterwise. -/
def pyLower (s : String) : String :=
  String.mk (s.data.map lowerChar)

/-- `value.strip("\n")` on the character list: remove leading and trailing
newline characters only. -/
def stripNewlinesList (l : List Char) : List Char :=
  ((l.dropWhile (· = '\n')).reverse.dropWhile (· = '\n')).reverse

/-- `value.strip("\n")`: remove leading and trailing newlines from a string. -/
def stripNewlines (s : String) : String :=
  String.mk (stripNewlinesList s.data)

/-- `element.get(key)`: attribute lookup by name, `None` when absent. -/
def attrGet (attrs : List (String × String)) (key : String) : Option String :=
  (attrs.find? (fun p => p.1 = key)).map (fun p => p.2)

/-- Embed an optional attribute value as JSON (`None` becomes explicit null). -/
def jOpt : Option String → JVal
  | none => JVal.null
  | some s => JVal.str s

/-- `_text_node(value, bold=…, italic=…)` (converter.py lines 23-34): a text
node whose value has surrounding newlines removed; the `bold` / `italic` keys
are added only when the flag is true. -/
def _text_node (value : String) (bold : Bool) (italic : Bool) : JVal :=
  JVal.obj ([("type", JVal.str "text"), ("value", JVal.str (stripNewlines value))]
    ++ (if bold then [("bold", JVal.bool true)] else [])
    ++ (if italic then [("italic", JVal.bool true)] else []))

mutual

/-- `element.get_text()`: the concatenation of all descendant raw text. -/
def getText : HtmlNode → String
  | HtmlNode.text s => s
  | HtmlNode.elem _ _ children => getTextList children
termination_by structural n => n

/-- `get_text` over an ordered child list. -/
def getTextList : List HtmlNode → String
  | [] => ""
  | c :: cs => getText c ++ getTextList cs
termination_by structural l => l

end

mutual

/-- `_parse_inline(element, bold=…, italic=…)` (converter.py lines 37-85):
recursively resolve an inline node to a flat list of text / link nodes,
threading the inherited bold/italic context. -/
def _parse_inline : HtmlNode → Bool → Bool → List JVal
  | HtmlNode.text s, bold, italic =>
      if pyStripEmpty s then []
      else [_text_node s bold italic]
  | HtmlNode.elem name attrs contents, bold, italic =>
      let tag := pyLower name
      let ctx : Bool × Bool :=
        if tag = "strong" || tag = "b" then (true, italic)
        else if tag = "em" || tag = "i" then (bold, true)
        else (bold, italic)
      if tag = "a" then
        let children := _parse_inline_list contents ctx.1 ctx.2
        [JVal.obj [("type", JVal.str "link"),
          ("url", jOpt (attrGet attrs "href")),
          ("title", jOpt (attrGet attrs "title")),
          ("target", jOpt (attrGet attrs "target")),
          ("children", JVal.arr (if children.isEmpty
            then [_text_node (getText (HtmlNode.elem name attrs contents)) ctx.1 ctx.2]
            else children))]]
      else
        _parse_inline_list contents ctx.1 ctx.2
termination_by structural e => e

/-- The `for child in element.contents: children.extend(_parse_inline(child, …))`
loops of converter.py: resolve each child in order and concatenate. -/
def _parse_inline_list : List HtmlNode → Bool → Bool → List JVal
  | [], _, _ => []
  | c :: cs, bold, italic =>
      _parse_inline c bold italic ++ _parse_inline_list cs bold italic
termination_by structural l => l

end

/-- Membership test `tag_name in {f"h{i}" for i in range(1, 7)}`. -/
def isHeadingTag (tag : String) : Bool :=
  tag = "h1" || tag = "h2" || tag = "h3" || tag = "h4" || tag = "h5" || tag = "h6"

/-- `int(tag_name[1])` for a heading tag (only ever applied after
`isHeadingTag` holds, where the second character is a digit). -/
def headingLevel (tag : String) : Nat :=
  match tag.data with
  | _ :: c :: _ => c.toNat - '0'.toNat
  | _ => 0

/-- `node.find_all("li", recursive=False)`: the direct children that are
elements named `li`. -/
def findAllLi (l : List HtmlNode) : List HtmlNode :=
  l.filter (fun n => match n with
    | HtmlNode.elem name _ _ => name = "li"
    | _ => false)

/-- The `for li in …` loop of converter.py lines 154-157: resolve each `li`,
keeping a `list-item` only when its resolved children are non-empty. -/
def liItems : List HtmlNode → List JVal
  | [] => []
  | li :: rest =>
      let cs := _parse_inline li false false
      (if cs.isEmpty then []
       else [JVal.obj [("type", JVal.str "list-item"), ("children", JVal.arr cs)]])
      ++ liItems rest

/-- The body of the top-level `for node in top_level` loop (converter.py
lines 124-170): the 0-or-1 block nodes appended to `root_children` for one
top-level parse node. -/
def blockNodes : HtmlNode → List JVal
  | HtmlNode.text s =>
      if pyStripEmpty s then []
      else [JVal.obj [("type", JVal.str "paragraph"),
        ("children", JVal.arr (_parse_inline (HtmlNode.text s) false false))]]
  | HtmlNode.elem name attrs contents =>
      let node := HtmlNode.elem name attrs contents
      let tag := pyLower name
      if isHeadingTag tag then
        [JVal.obj [("type", JVal.str "heading"),
          ("level", JVal.num (headingLevel tag)),
          ("children", JVal.arr (_parse_inline node false false))]]
      else if tag = "p" then
        [JVal.obj [("type", JVal.str "paragraph"),
          ("children", JVal.arr (_parse_inline node false false))]]
      else if tag = "ul" || tag = "ol" then
        let listType := if tag = "ul" then "unordered" else "ordered"
        let items := liItems (findAllLi contents)
        if items.isEmpty then []
        else [JVal.obj [("type", JVal.str "list"),
          ("listType", JVal.str listType),
          ("children", JVal.arr items)]]
      else if tag = "blockquote" then
        [JVal.obj [("type", JVal.str "quote"),
          ("children", JVal.arr [JVal.obj [("type", JVal.str "paragraph"),
            ("children", JVal.arr (_parse_inline node false false))]])]]
      else
        [JVal.obj [("type", JVal.str "paragraph"),
          ("children", JVal.arr (_parse_inline node false false))]]

/-- The whole top-level loop: blocks appended for each top-level node, in
document order. -/
def topLevelBlocks : List HtmlNode → List JVal
  | [] => []
  | n :: ns => blockNodes n ++ topLevelBlocks ns

/-- `html_to_richtext(html_content)` (converter.py lines 92-172).  `parse`
stands for the external BeautifulSoup collaborator together with the
body-or-top-level selection of line 118: it returns the top-level iterable of
parse nodes for a non-empty input. -/
def html_to_richtext (html_content : String) (parse : String → List HtmlNode) : JVal :=
  if html_content.isEmpty then
    JVal.obj [("type", JVal.str "root"), ("children", JVal.arr [])]
  else
    JVal.obj [("type", JVal.str "root"),
      ("children", JVal.arr (topLevelBlocks (parse html_content)))]

/-- Ordered dict lookup: the value of the first field with the given key. -/
def lookupField : List (String × JVal) → String → Option JVal
  | [], _ => none
  | (k, v) :: rest, key => if k = key then some v else lookupField rest key

/-- Field lookup on a JSON value (objects only). -/
def nodeField (j : JVal) (key : String) : Option JVal :=
  match j with
  | JVal.obj fields => lookupField fields key
  | _ => none

mutual

/-- Every object occurring anywhere inside the value (itself included)
satisfies the field-list predicate `p`. -/
def allObjs (p : List (String × JVal) → Bool) : JVal → Bool
  | JVal.obj fields => p fields && allObjsFields p fields
  | JVal.arr elems => allObjsList p elems
  | _ => true
termination_by structural j => j

/-- `allObjs` over the values of a field list. -/
def allObjsFields (p : List (String × JVal) → Bool) : List (String × JVal) → Bool
  | [] => true
  | (_, v) :: rest => allObjs p v && allObjsFields p rest
termination_by structural l => l

/-- `allObjs` over a list of values. -/
def allObjsList (p : List (String × JVal) → Bool) : List JVal → Bool
  | [] => true
  | v :: vs => allObjs p v && allObjsList p vs
termination_by structural l => l

end

/-- The node's `type` field is one of the eight schema node types. -/
def typeOkP (fields : List (String × JVal)) : Bool :=
  match lookupField fields "type" with
  | some (JVal.str t) =>
      t = "root" || t = "paragraph" || t = "heading" || t = "list" ||
      t = "list-item" || t = "quote" || t = "text" || t = "link"
  | _ => false

/-- The object's `type` field is present and equal to `"text"`. -/
def isTextTypeF (fields : List (String × JVal)) : Bool :=
  match lookupField fields "type" with
  | some (JVal.str t) => t = "text"
  | _ => false

/-- If the object is a text node then its `bold` field is present and true. -/
def boldOkP (fields : List (String × JVal)) : Bool :=
  if isTextTypeF fields then
    match lookupField fields "bold" with
    | some (JVal.bool b) => b
    | _ => false
  else true

/-- If the object is a text node then its `italic` field is present and true. -/
def italicOkP (fields : List (String × JVal)) : Bool :=
  if isTextTypeF fields then
    match lookupField fields "italic" with
    | some (JVal.bool b) => b
    | _ => false
  else true

/-! ### Helper lemmas -/

theorem allObjsList_append (p : List (String × JVal) → Bool) (xs ys : List JVal) :
    allObjsList p (xs ++ ys) = (allObjsList p xs && allObjsList p ys) := by
  induction xs with
  | nil => simp [allObjsList]
  | cons x xs ih => simp [allObjsList, ih, Bool.and_assoc]

theorem allObjs_jOpt (p : List (String × JVal) → Bool) (o : Option String) :
    allObjs p (jOpt o) = true := by
  cases o <;> simp [jOpt, allObjs]

theorem bold_text_node (s : String) (i : Bool) :
    allObjs boldOkP (_text_node s true i) = true := by
  cases i <;>
    simp [allObjs, allObjsFields, _text_node, boldOkP, isTextTypeF, lookupField]

theorem italic_text_node (s : String) (b : Bool) :
    allObjs italicOkP (_text_node s b true) = true := by
  cases b <;>
    simp [allObjs, allObjsFields, _text_node, italicOkP, isTextTypeF, lookupField]

theorem type_text_node (s : String) (b i : Bool) :
    allObjs typeOkP (_text_node s b i) = true := by
  cases b <;> cases i <;>
    simp [allObjs, allObjsFields, _text_node, typeOkP, lookupField]

theorem bold_link_obj (u t g : Option String) (cs : List JVal)
    (h : allObjsList boldOkP cs = true) :
    allObjsList boldOkP [JVal.obj [("type", JVal.str "link"),
      ("url", jOpt u), ("title", jOpt t), ("target", jOpt g),
      ("children", JVal.arr cs)]] = true := by
  simp [allObjsList, allObjs, allObjsFields, allObjs_jOpt, boldOkP, isTextTypeF, lookupField, h]

theorem italic_link_obj (u t g : Option String) (cs : List JVal)
    (h : allObjsList italicOkP cs = true) :
    allObjsList italicOkP [JVal.obj [("type", JVal.str "link"),
      ("url", jOpt u), ("title", jOpt t), ("target", jOpt g),
      ("children", JVal.arr cs)]] = true := by
  simp [allObjsList, allObjs, allObjsFields, allObjs_jOpt, italicOkP, isTextTypeF, lookupField, h]

theorem type_link_obj (u t g : Option String) (cs : List JVal)
    (h : allObjsList typeOkP cs = true) :
    allObjsList typeOkP [JVal.obj [("type", JVal.str "link"),
      ("url", jOpt u), ("title", jOpt t), ("target", jOpt g),
      ("children", JVal.arr cs)]] = true := by
  simp [allObjsList, allObjs, allObjsFields, allObjs_jOpt, typeOkP, lookupField, h]

/-- The `elem` equation of `_parse_inline`, spelled out for rewriting. -/
theorem parse_inline_elem_eq (name : String) (attrs : List (String × String))
    (contents : List HtmlNode) (b i : Bool) :
    _parse_inline (HtmlNode.elem name attrs contents) b i =
      (let tag := pyLower name
       let ctx : Bool × Bool :=
         if tag = "strong" || tag = "b" then (true, i)
         else if tag = "em" || tag = "i" then (b, true)
         else (b, i)
       if tag = "a" then
         let children := _parse_inline_list contents ctx.1 ctx.2
         [JVal.obj [("type", JVal.str "link"),
           ("url", jOpt (attrGet attrs "href")),
           ("title", jOpt (attrGet attrs "title")),
           ("target", jOpt (attrGet attrs "target")),
           ("children", JVal.arr (if children.isEmpty
             then [_text_node (getText (HtmlNode.elem name attrs contents)) ctx.1 ctx.2]
             else children))]]
       else
         _parse_inline_list contents ctx.1 ctx.2) := by
  simp only [_parse_inline]

mutual

/-- Once the inherited bold flag is true, every text node anywhere in the
resolver's output carries `bold: true`. -/
theorem boldAccum : ∀ (e : HtmlNode) (i : Bool),
    allObjsList boldOkP (_parse_inline e true i) = true
  | HtmlNode.text s, i => by
      by_cases h : pyStripEmpty s = true
      · simp [_parse_inline, h, allObjsList]
      · simp only [_parse_inline]
        rw [if_neg (by simp [h])]
        simp [allObjsList, bold_text_node]
  | HtmlNode.elem name attrs contents, i => by
      rw [parse_inline_elem_eq]
      have hctx :
          (if pyLower name = "strong" || pyLower name = "b" then ((true : Bool), i)
           else if pyLower name = "em" || pyLower name = "i" then (true, true)
           else (true, i)) =
          (true, if pyLower name = "strong" || pyLower name = "b" then i
                 else if pyLower name = "em" || pyLower name = "i" then true else i) := by
        by_cases h1 : (pyLower name = "strong" || pyLower name = "b") = true <;>
          by_cases h2 : (pyLower name = "em" || pyLower name = "i") = true <;>
            simp [h1, h2]
      simp only [hctx]
      by_cases ha : pyLower name = "a"
      · rw [if_pos (by simp [ha])]
        by_cases he :
            (_parse_inline_list contents true
              (if pyLower name = "strong" || pyLower name = "b" then i
               else if pyLower name = "em" || pyLower name = "i" then true else i)).isEmpty = true
        · rw [if_pos he]
          exact bold_link_obj _ _ _ _ (by simp [allObjsList, bold_text_node])
        · rw [if_neg he]
          exact bold_link_obj _ _ _ _ (boldAccumList contents _)
      · rw [if_neg (by simp [ha])]
        exact boldAccumList contents _
termination_by structural e => e

/-- List form of `boldAccum`. -/
theorem boldAccumList : ∀ (l : List HtmlNode) (i : Bool),
    allObjsList boldOkP (_parse_inline_list l true i) = true
  | [], _ => by simp [_parse_inline_list, allObjsList]
  | c :: cs, i => by
      simp only [_parse_inline_list, allObjsList_append]
      rw [boldAccum c i, boldAccumList cs i]
      rfl
termination_by structural l => l

end

mutual

/-- Once the inherited italic flag is true, every text node anywhere in the
resolver's output carries `italic: true`. -/
theorem italicAccum : ∀ (e : HtmlNode) (b : Bool),
    allObjsList italicOkP (_parse_inline e b true) = true
  | HtmlNode.text s, b => by
      by_cases h : pyStripEmpty s = true
      · simp [_parse_inline, h, allObjsList]
      · simp only [_parse_inline]
        rw [if_neg (by simp [h])]
        simp [allObjsList, italic_text_node]
  | HtmlNode.elem name attrs contents, b => by
      rw [parse_inline_elem_eq]
      have hctx :
          (if pyLower name = "strong" || pyLower name = "b" then ((true : Bool), true)
           else if pyLower name = "em" || pyLower name = "i" then (b, true)
           else (b, true)) =
          (if pyLower name = "strong" || pyLower name = "b" then true else b, true) := by
        by_cases h1 : (pyLower name = "strong" || pyLower name = "b") = true <;>
          by_cases h2 : (pyLower name = "em" || pyLower name = "i") = true <;>
            simp [h1, h2]
      simp only [hctx]
      by_cases ha : pyLower name = "a"
      · rw [if_pos (by simp [ha])]
        by_cases he :
            (_parse_inline_list contents
              (if pyLower name = "strong" || pyLower name = "b" then true else b)
              true).isEmpty = true
        · rw [if_pos he]
          exact italic_link_obj _ _ _ _ (by simp [allObjsList, italic_text_node])
        · rw [if_neg he]
          exact italic_link_obj _ _ _ _ (italicAccumList contents _)
      · rw [if_neg (by simp [ha])]
        exact italicAccumList contents _
termination_by structural e => e

/-- List form of `italicAccum`. -/
theorem italicAccumList : ∀ (l : List HtmlNode) (b : Bool),
    allObjsList italicOkP (_parse_inline_list l b true) = true
  | [], _ => by simp [_parse_inline_list, allObjsList]
  | c :: cs, b => by
      simp only [_parse_inline_list, allObjsList_append]
      rw [italicAccum c b, italicAccumList cs b]
      rfl
termination_by structural l => l

end

mutual

/-- Every object in the resolver's output has its `type` in the schema's
closed set. -/
theorem typesOk : ∀ (e : HtmlNode) (b i : Bool),
    allObjsList typeOkP (_parse_inline e b i) = true
  | HtmlNode.text s, b, i => by
      by_cases h : pyStripEmpty s = true
      · simp [_parse_inline, h, allObjsList]
      · simp only [_parse_inline]
        rw [if_neg (by simp [h])]
        simp [allObjsList, type_text_node]
  | HtmlNode.elem name attrs contents, b, i => by
      rw [parse_inline_elem_eq]
      simp only []
      generalize (if pyLower name = "strong" || pyLower name = "b" then ((true : Bool), i)
         else if pyLower name = "em" || pyLower name = "i" then (b, true)
         else (b, i)) = ctx
      obtain ⟨b1, i1⟩ := ctx
      by_cases ha : pyLower name = "a"
      · rw [if_pos (by simp [ha])]
        by_cases he : (_parse_inline_list contents b1 i1).isEmpty = true
        · rw [if_pos he]
          exact type_link_obj _ _ _ _ (by simp [allObjsList, type_text_node])
        · rw [if_neg he]
          exact type_link_obj _ _ _ _ (typesOkList contents b1 i1)
      · rw [if_neg (by simp [ha])]
        exact typesOkList contents b1 i1
termination_by structural e => e

/-- List form of `typesOk`. -/
theorem typesOkList : ∀ (l : List HtmlNode) (b i : Bool),
    allObjsList typeOkP (_parse_inline_list l b i) = true
  | [], _, _ => by simp [_parse_inline_list, allObjsList]
  | c :: cs, b, i => by
      simp only [_parse_inline_list, allObjsList_append]
      rw [typesOk c b i, typesOkList cs b i]
      rfl
termination_by structural l => l

end

/-- Every object produced for a run of `li` items has a schema type. -/
theorem typesOk_liItems (l : List HtmlNode) :
    allObjsList typeOkP (liItems l) = true := by
  induction l with
  | nil => simp [liItems, allObjsList]
  | cons li rest ih =>
      simp only [liItems, allObjsList_append]
      rw [ih]
      by_cases he : (_parse_inline li false false).isEmpty = true
      · rw [if_pos he]
        rfl
      · rw [if_neg he]
        simp [allObjsList, allObjs, allObjsFields, typeOkP, lookupField, typesOk]

/-- Every object produced for one top-level node has a schema type. -/
theorem typesOk_block (n : HtmlNode) :
    allObjsList typeOkP (blockNodes n) = true := by
  match n with
  | HtmlNode.text s =>
      by_cases h : pyStripEmpty s = true
      · simp [blockNodes, h, allObjsList]
      · simp only [blockNodes]
        rw [if_neg (by simp [h])]
        simp [allObjsList, allObjs, allObjsFields, typeOkP, lookupField, typesOk]
  | HtmlNode.elem name attrs contents =>
      simp only [blockNodes]
      split
      · simp [allObjsList, allObjs, allObjsFields, typeOkP, lookupField, typesOk]
      · split
        · simp [allObjsList, allObjs, allObjsFields, typeOkP, lookupField, typesOk]
        · split
          · split
            · rfl
            · simp [allObjsList, allObjs, allObjsFields, typeOkP, lookupField, typesOk_liItems]
          · split
            · simp [allObjsList, allObjs, allObjsFields, typeOkP, lookupField, typesOk]
            · simp [allObjsList, allObjs, allObjsFields, typeOkP, lookupField, typesOk]

/-- Every object among the root's children has a schema type. -/
theorem typesOk_top (ns : List HtmlNode) :
    allObjsList typeOkP (topLevelBlocks ns) = true := by
  induction ns with
  | nil => simp [topLevelBlocks, allObjsList]
  | cons n ns ih =>
      simp only [topLevelBlocks, allObjsList_append]
      rw [typesOk_block n, ih]
      rfl

/-- On an element that is no formatting tag and no anchor, the resolver just
concatenates the resolution of the children (the element is unwrapped). -/
theorem parse_inline_generic (name : String) (attrs : List (String × String))
    (contents : List HtmlNode) (b i : Bool)
    (h1 : pyLower name ≠ "strong") (h2 : pyLower name ≠ "b")
    (h3 : pyLower name ≠ "em") (h4 : pyLower name ≠ "i")
    (h5 : pyLower name ≠ "a") :
    _parse_inline (HtmlNode.elem name attrs contents) b i =
      _parse_inline_list contents b i := by
  rw [parse_inline_elem_eq]
  simp [h1, h2, h3, h4, h5]

/-- Stripping newlines removes exactly a (possibly empty) run of leading and a
run of trailing newline characters; every other character, spaces included,
is preserved in place. -/
theorem stripNewlinesList_decomp (l : List Char) :
    ∃ k m, l = List.replicate k '\n' ++ stripNewlinesList l ++ List.replicate m '\n' := by
  have htake : ∀ (t : List Char), t.takeWhile (· = '\n') =
      List.replicate (t.takeWhile (· = '\n')).length '\n' := by
    intro t
    apply List.eq_replicate_of_mem
    intro c hc
    simpa using List.mem_takeWhile_imp hc
  refine ⟨(l.takeWhile (· = '\n')).length,
    ((l.dropWhile (· = '\n')).reverse.takeWhile (· = '\n')).length, ?_⟩
  unfold stripNewlinesList
  have hstep : l = l.takeWhile (· = '\n') ++
      ((l.dropWhile (· = '\n')).reverse.dropWhile (· = '\n')).reverse ++
      ((l.dropWhile (· = '\n')).reverse.takeWhile (· = '\n')).reverse := by
    rw [List.append_assoc]
    conv_lhs => rw [← List.takeWhile_append_dropWhile (· = '\n') l]
    congr 1
    conv_lhs => rw [← List.reverse_reverse (l.dropWhile (· = '\n'))]
    rw [← List.reverse_append]
    congr 1
    exact (List.takeWhile_append_dropWhile (· = '\n') _).symm
  conv_lhs => rw [hstep]
  congr 1
  · congr 1
    exact htake l
  · rw [htake ((l.dropWhile (· = '\n')).reverse)]
    simp [List.reverse_replicate]

/-- String form of `stripNewlinesList_decomp`. -/
theorem stripNewlines_decomp (s : String) :
    ∃ k m, s.data = List.replicate k '\n' ++ (stripNewlines s).data ++ List.replicate m '\n' :=
  stripNewlinesList_decomp s.data

/-! ### Claims -/

/-- Claim C9: for the empty string — the only falsy value of the string input
type — `html_to_richtext` returns a root node with empty children; the result
does not depend on the parsing collaborator, which models that the parser is
never invoked. -/
theorem C9_empty_input (parse : String → List HtmlNode) :
    html_to_richtext "" parse =
      JVal.obj [("type", JVal.str "root"), ("children", JVal.arr [])] := rfl

/-- Claim C8: for every input string and every parse result, every object
node anywhere in the returned tree has a `type` field drawn from the closed
set root / paragraph / heading / list / list-item / quote / text / link, and
the outermost node's type is `root`. -/
theorem C8_closed_type_set (s : String) (parse : String → List HtmlNode) :
    allObjs typeOkP (html_to_richtext s parse) = true ∧
    nodeField (html_to_richtext s parse) "type" = some (JVal.str "root") := by
  unfold html_to_richtext
  by_cases h : s.isEmpty = true
  · rw [if_pos h]
    exact ⟨by decide, by decide⟩
  · rw [if_neg h]
    constructor
    · simp [allObjs, allObjsFields, typeOkP, lookupField, typesOk_top]
    · simp [nodeField, lookupField]

/-- Claim C6: a top-level blockquote yields exactly one quote node whose
children list has length exactly one, that single child being a synthetic
paragraph wrapping the inline resolution of the blockquote's content — even
when that resolution is empty. -/
theorem C6_blockquote (name : String) (attrs : List (String × String))
    (contents : List HtmlNode) (h : pyLower name = "blockquote") :
    blockNodes (HtmlNode.elem name attrs contents) =
      [JVal.obj [("type", JVal.str "quote"),
        ("children", JVal.arr [JVal.obj [("type", JVal.str "paragraph"),
          ("children", JVal.arr (_parse_inline_list contents false false))]])]] ∧
    [JVal.obj [("type", JVal.str "paragraph"),
      ("children", JVal.arr (_parse_inline_list contents false false))]].length = 1 := by
  have hg := parse_inline_generic name attrs contents false false
    (by rw [h]; decide) (by rw [h]; decide) (by rw [h]; decide)
    (by rw [h]; decide) (by rw [h]; decide)
  refine ⟨?_, rfl⟩
  simp only [blockNodes]
  rw [h]
  rw [if_neg (by decide), if_neg (by decide), if_neg (by decide), if_pos (by decide), hg]

/-- Claim C6 witness: the quote wrapper is produced even for an empty
blockquote, with the synthetic paragraph present and empty. -/
theorem C6_witness :
    blockNodes (HtmlNode.elem "blockquote" [] []) =
      [JVal.obj [("type", JVal.str "quote"),
        ("children", JVal.arr [JVal.obj [("type", JVal.str "paragraph"),
          ("children", JVal.arr (_parse_inline_list [] false false))]])]] :=
  (C6_blockquote "blockquote" [] [] (by decide)).1

/-- Claim C3: the resolver maps a raw text node to the empty sequence exactly
when the text is whitespace-only; otherwise to a single text node whose value
is the original text with only leading/trailing newline runs removed (spaces
preserved — the decomposition conjunct shows only newline characters are
dropped, at the two ends), whose `bold` key is present (with value true) iff
the inherited bold flag is true, likewise `italic`; false is never stored. -/
theorem C3_text_rule (s : String) (b i : Bool) :
    (pyStripEmpty s = true → _parse_inline (HtmlNode.text s) b i = []) ∧
    (pyStripEmpty s = false →
      _parse_inline (HtmlNode.text s) b i = [_text_node s b i] ∧
      nodeField (_text_node s b i) "value" = some (JVal.str (stripNewlines s)) ∧
      (nodeField (_text_node s b i) "bold" =
        if b then some (JVal.bool true) else none) ∧
      (nodeField (_text_node s b i) "italic" =
        if i then some (JVal.bool true) else none) ∧
      ∃ k m, s.data = List.replicate k '\n' ++ (stripNewlines s).data ++ List.replicate m '\n') := by
  refine ⟨fun h => by simp [_parse_inline, h], fun h => ⟨?_, ?_, ?_, ?_, stripNewlines_decomp s⟩⟩
  · simp only [_parse_inline]
    rw [if_neg (by simp [h])]
  · cases b <;> cases i <;> simp [_text_node, nodeField, lookupField]
  · cases b <;> cases i <;> simp [_text_node, nodeField, lookupField]
  · cases b <;> cases i <;> simp [_text_node, nodeField, lookupField]

/-- Claim C3 witness: a concrete non-whitespace text with surrounding
newlines and an inner space, under inherited italic. -/
theorem C3_witness :
    _parse_inline (HtmlNode.text "\n x\n") false true = [_text_node "\n x\n" false true] :=
  ((C3_text_rule "\n x\n" false true).2 (by decide)).1

/-- Claim C4: formatting only accumulates.  With inherited bold true every
text node anywhere in the resolver's output (for any element and any italic
context) carries `bold: true`, symmetrically for italic; and descending into
a strong/b (resp. em/i) element forces bold (resp. italic) on its whole
subtree whatever the inherited context was.  No tag un-sets a flag. -/
theorem C4_formatting_accumulates :
    (∀ (e : HtmlNode) (i : Bool), allObjsList boldOkP (_parse_inline e true i) = true) ∧
    (∀ (e : HtmlNode) (b : Bool), allObjsList italicOkP (_parse_inline e b true) = true) ∧
    (∀ (name : String) (attrs : List (String × String)) (contents : List HtmlNode) (b i : Bool),
      (pyLower name = "strong" ∨ pyLower name = "b") →
      allObjsList boldOkP (_parse_inline (HtmlNode.elem name attrs contents) b i) = true) ∧
    (∀ (name : String) (attrs : List (String × String)) (contents : List HtmlNode) (b i : Bool),
      (pyLower name = "em" ∨ pyLower name = "i") →
      allObjsList italicOkP (_parse_inline (HtmlNode.elem name attrs contents) b i) = true) := by
  refine ⟨boldAccum, italicAccum, ?_, ?_⟩
  · intro name attrs contents b i h
    rw [parse_inline_elem_eq]
    rcases h with h | h <;> simp [h] <;> exact boldAccumList contents i
  · intro name attrs contents b i h
    rw [parse_inline_elem_eq]
    rcases h with h | h <;> simp [h] <;> exact italicAccumList contents b

/-- Claim C4 witness: a b-tag forces bold on its text even with no inherited
formatting. -/
theorem C4_witness :
    allObjsList boldOkP
      (_parse_inline (HtmlNode.elem "b" [] [HtmlNode.text "x"]) false false) = true :=
  C4_formatting_accumulates.2.2.1 "b" [] [HtmlNode.text "x"] false false (Or.inr (by decide))

/-- Claim C2 counterexample: for `<a>` containing only the text `"\n"`, the
child resolution is empty, so the fallback fires; the anchor's full extracted
descendant text is `"\n"`, but the emitted fallback text node's value is the
newline-stripped `""`, not `"\n"` — so the fallback value is not the full
extracted text verbatim, refuting the claim as stated at this input. -/
theorem C2_counterexample :
    getText (HtmlNode.elem "a" [] [HtmlNode.text "\n"]) = "\n" ∧
    _parse_inline (HtmlNode.elem "a" [] [HtmlNode.text "\n"]) false false ≠
      [JVal.obj [("type", JVal.str "link"), ("url", JVal.null), ("title", JVal.null),
        ("target", JVal.null),
        ("children", JVal.arr [JVal.obj [("type", JVal.str "text"),
          ("value", JVal.str (getText (HtmlNode.elem "a" [] [HtmlNode.text "\n"])))]])]] := by
  constructor
  · decide
  · decide

/-- Claim C2 (amended): for every anchor element and inherited context the
resolver returns exactly one link node with `url`/`title`/`target` copied
verbatim from the `href`/`title`/`target` attributes (explicit null when the
attribute is absent, the field still present), whose children are the
concatenated resolution of the anchor's direct children under that context —
except that when that concatenation is empty, children is a single synthetic
text node built by `_text_node` from the anchor's full extracted descendant
plain text (hence with leading/trailing newlines stripped, as for every text
node), carrying the same inherited bold/italic flags. -/
theorem C2_link_node (name : String) (attrs : List (String × String))
    (contents : List HtmlNode) (b i : Bool) (h : pyLower name = "a") :
    _parse_inline (HtmlNode.elem name attrs contents) b i =
      [JVal.obj [("type", JVal.str "link"),
        ("url", jOpt (attrGet attrs "href")),
        ("title", jOpt (attrGet attrs "title")),
        ("target", jOpt (attrGet attrs "target")),
        ("children", JVal.arr
          (if (_parse_inline_list contents b i).isEmpty
           then [_text_node (getText (HtmlNode.elem name attrs contents)) b i]
           else _parse_inline_list contents b i))]] ∧
    (attrGet attrs "href" = none → jOpt (attrGet attrs "href") = JVal.null) ∧
    (attrGet attrs "title" = none → jOpt (attrGet attrs "title") = JVal.null) ∧
    (attrGet attrs "target" = none → jOpt (attrGet attrs "target") = JVal.null) := by
  refine ⟨?_, fun e => by rw [e]; rfl, fun e => by rw [e]; rfl, fun e => by rw [e]; rfl⟩
  rw [parse_inline_elem_eq]
  simp [h]

/-- Claim C2 witness: an anchor with an `href`, a missing `title`/`target`
and a resolvable text child. -/
theorem C2_witness :
    _parse_inline (HtmlNode.elem "a" [("href", "x")] [HtmlNode.text "hi"]) false false =
      [JVal.obj [("type", JVal.str "link"),
        ("url", jOpt (attrGet [("href", "x")] "href")),
        ("title", jOpt (attrGet [("href", "x")] "title")),
        ("target", jOpt (attrGet [("href", "x")] "target")),
        ("children", JVal.arr
          (if (_parse_inline_list [HtmlNode.text "hi"] false false).isEmpty
           then [_text_node (getText (HtmlNode.elem "a" [("href", "x")] [HtmlNode.text "hi"])) false false]
           else _parse_inline_list [HtmlNode.text "hi"] false false))]] :=
  (C2_link_node "a" [("href", "x")] [HtmlNode.text "hi"] false false (by decide)).1

/-- Claim C10: an anchor whose entire content is whitespace-only text still
produces exactly one synthetic text child, with value equal to that
whitespace with only leading/trailing newlines stripped — the whitespace
elision rule does not apply on the link fallback path, so whitespace-only
text values can appear in the output tree. -/
theorem C10_link_whitespace (name : String) (attrs : List (String × String))
    (s : String) (b i : Bool)
    (hname : pyLower name = "a") (hws : pyStripEmpty s = true) :
    _parse_inline (HtmlNode.elem name attrs [HtmlNode.text s]) b i =
      [JVal.obj [("type", JVal.str "link"),
        ("url", jOpt (attrGet attrs "href")),
        ("title", jOpt (attrGet attrs "title")),
        ("target", jOpt (attrGet attrs "target")),
        ("children", JVal.arr [_text_node s b i])]] ∧
    nodeField (_text_node s b i) "value" = some (JVal.str (stripNewlines s)) := by
  have he : _parse_inline_list [HtmlNode.text s] b i = [] := by
    simp [_parse_inline_list, _parse_inline, hws]
  constructor
  · rw [parse_inline_elem_eq]
    simp [hname, he, getText, getTextList]
  · cases b <;> cases i <;> simp [_text_node, nodeField, lookupField]

/-- Claim C10 witness: `<a href="x">   </a>` keeps the three spaces as the
synthetic text child's value. -/
theorem C10_witness :
    _parse_inline (HtmlNode.elem "a" [("href", "x")] [HtmlNode.text "   "]) false false =
      [JVal.obj [("type", JVal.str "link"),
        ("url", jOpt (attrGet [("href", "x")] "href")),
        ("title", jOpt (attrGet [("href", "x")] "title")),
        ("target", jOpt (attrGet [("href", "x")] "target")),
        ("children", JVal.arr [_text_node "   " false false])]] :=
  (C10_link_whitespace "a" [("href", "x")] "   " false false (by decide) (by decide)).1

/-- Claim C1 counterexample: a top-level `<strong>` element has none of the
recognized block tags, so the fallback paragraph is produced — but its
children are the resolver applied to the element itself, which switches bold
on for the subtree; they differ from the resolution of the element's direct
children with no inherited formatting, refuting the claim as stated. -/
theorem C1_counterexample :
    blockNodes (HtmlNode.elem "strong" [] [HtmlNode.text "x"]) ≠
      [JVal.obj [("type", JVal.str "paragraph"),
        ("children", JVal.arr (_parse_inline_list [HtmlNode.text "x"] false false))]] := by
  decide

/-- Claim C1 (amended): for every top-level element whose lowercased tag is
none of h1-h6, p, ul, ol, blockquote, exactly one paragraph node is appended,
whose children are the Inline Resolver applied to the element itself with no
inherited formatting; when the tag is moreover none of strong, b, em, i, a,
this equals the concatenation of the resolver over the element's direct
children with no inherited formatting.  No exception can be raised: the
embedding is a total function, mirroring the total fallback of the code. -/
theorem C1_unknown_tag_paragraph (name : String) (attrs : List (String × String))
    (contents : List HtmlNode)
    (h1 : isHeadingTag (pyLower name) = false)
    (h2 : pyLower name ≠ "p") (h3 : pyLower name ≠ "ul") (h4 : pyLower name ≠ "ol")
    (h5 : pyLower name ≠ "blockquote") :
    blockNodes (HtmlNode.elem name attrs contents) =
      [JVal.obj [("type", JVal.str "paragraph"),
        ("children", JVal.arr (_parse_inline (HtmlNode.elem name attrs contents) false false))]] ∧
    (pyLower name ≠ "strong" → pyLower name ≠ "b" → pyLower name ≠ "em" →
      pyLower name ≠ "i" → pyLower name ≠ "a" →
      _parse_inline (HtmlNode.elem name attrs contents) false false =
        _parse_inline_list contents false false) := by
  constructor
  · simp only [blockNodes]
    rw [if_neg (by simp [h1]), if_neg h2, if_neg (by simp [h3, h4]), if_neg h5]
  · intro g1 g2 g3 g4 g5
    exact parse_inline_generic name attrs contents false false g1 g2 g3 g4 g5

/-- Claim C1 witness: an unrecognized `<div>` becomes a paragraph. -/
theorem C1_witness :
    blockNodes (HtmlNode.elem "div" [] [HtmlNode.text "x"]) =
      [JVal.obj [("type", JVal.str "paragraph"),
        ("children", JVal.arr
          (_parse_inline (HtmlNode.elem "div" [] [HtmlNode.text "x"]) false false))]] :=
  (C1_unknown_tag_paragraph "div" [] [HtmlNode.text "x"]
    (by decide) (by decide) (by decide) (by decide) (by decide)).1

/-- Claim C5: for a top-level ul/ol, only direct `li` element children are
considered (`findAllLi`), an `li` resolving to empty children contributes no
list-item (`liItems`), and when the item set is empty no list node is
appended at all; otherwise one list node with listType unordered (ul) or
ordered (ol) wrapping the items is appended.  In particular the conversion of
`<ul><li></li></ul>` is a root with empty children. -/
theorem C5_lists (name : String) (attrs : List (String × String))
    (contents : List HtmlNode) :
    (pyLower name = "ul" →
      (liItems (findAllLi contents) = [] →
        blockNodes (HtmlNode.elem name attrs contents) = []) ∧
      (liItems (findAllLi contents) ≠ [] →
        blockNodes (HtmlNode.elem name attrs contents) =
          [JVal.obj [("type", JVal.str "list"), ("listType", JVal.str "unordered"),
            ("children", JVal.arr (liItems (findAllLi contents)))]])) ∧
    (pyLower name = "ol" →
      (liItems (findAllLi contents) = [] →
        blockNodes (HtmlNode.elem name attrs contents) = []) ∧
      (liItems (findAllLi contents) ≠ [] →
        blockNodes (HtmlNode.elem name attrs contents) =
          [JVal.obj [("type", JVal.str "list"), ("listType", JVal.str "ordered"),
            ("children", JVal.arr (liItems (findAllLi contents)))]])) ∧
    (∀ parse : String → List HtmlNode,
      parse "<ul><li></li></ul>" = [HtmlNode.elem "ul" [] [HtmlNode.elem "li" [] []]] →
      html_to_richtext "<ul><li></li></ul>" parse =
        JVal.obj [("type", JVal.str "root"), ("children", JVal.arr [])]) := by
  refine ⟨fun h => ⟨fun hn => ?_, fun hn => ?_⟩,
    fun h => ⟨fun hn => ?_, fun hn => ?_⟩, fun parse hp => ?_⟩
  · simp only [blockNodes]
    rw [h, if_neg (by decide), if_neg (by decide), if_pos (by decide), hn]
    rfl
  · simp only [blockNodes]
    rw [h, if_neg (by decide), if_neg (by decide), if_pos (by decide),
      if_neg (by simp [List.isEmpty_iff, hn])]
    rfl
  · simp only [blockNodes]
    rw [h, if_neg (by decide), if_neg (by decide), if_pos (by decide), hn]
    rfl
  · simp only [blockNodes]
    rw [h, if_neg (by decide), if_neg (by decide), if_pos (by decide),
      if_neg (by simp [List.isEmpty_iff, hn])]
    rfl
  · simp only [html_to_richtext]
    rw [if_neg (by decide), hp]
    rfl

/-- Claim C5 witness: the spec's concrete example, a one-item list whose sole
item resolves to nothing, converts to a root with no children. -/
theorem C5_witness :
    html_to_richtext "<ul><li></li></ul>"
      (fun _ => [HtmlNode.elem "ul" [] [HtmlNode.elem "li" [] []]]) =
      JVal.obj [("type", JVal.str "root"), ("children", JVal.arr [])] :=
  (C5_lists "ul" [] []).2.2 (fun _ => [HtmlNode.elem "ul" [] [HtmlNode.elem "li" [] []]]) rfl

/-- Claim C7: a top-level h1-h6 yields a heading node whose level is the
numeral in the tag name and whose children are the resolver over the
element's content with no inherited formatting; in particular `<h3>Title</h3>`
converts to a level-3 heading holding one text node `"Title"` with no
bold/italic fields. -/
theorem C7_headings (name : String) (attrs : List (String × String))
    (contents : List HtmlNode) (k : Nat) (hk1 : 1 ≤ k) (hk2 : k ≤ 6)
    (h : pyLower name = "h" ++ toString k) :
    blockNodes (HtmlNode.elem name attrs contents) =
      [JVal.obj [("type", JVal.str "heading"), ("level", JVal.num k),
        ("children", JVal.arr (_parse_inline_list contents false false))]] ∧
    (∀ parse : String → List HtmlNode,
      parse "<h3>Title</h3>" = [HtmlNode.elem "h3" [] [HtmlNode.text "Title"]] →
      html_to_richtext "<h3>Title</h3>" parse =
        JVal.obj [("type", JVal.str "root"), ("children", JVal.arr
          [JVal.obj [("type", JVal.str "heading"), ("level", JVal.num 3),
            ("children", JVal.arr [JVal.obj [("type", JVal.str "text"),
              ("value", JVal.str "Title")]])]])]) := by
  constructor
  · interval_cases k
    all_goals
      have hg := parse_inline_generic name attrs contents false false
        (by rw [h]; decide) (by rw [h]; decide) (by rw [h]; decide)
        (by rw [h]; decide) (by rw [h]; decide)
    all_goals
      simp only [blockNodes]
      rw [h, if_pos (by decide), hg]
      rfl
  · intro parse hp
    simp only [html_to_richtext]
    rw [if_neg (by decide), hp]
    rfl

/-- Claim C7 witness: the spec's `<h3>Title</h3>` heading. -/
theorem C7_witness :
    blockNodes (HtmlNode.elem "h3" [] [HtmlNode.text "Title"]) =
      [JVal.obj [("type", JVal.str "heading"), ("level", JVal.num 3),
        ("children", JVal.arr (_parse_inline_list [HtmlNode.text "Title"] false false))]] :=
  (C7_headings "h3" [] [HtmlNode.text "Title"] 3 (by decide) (by decide) (by decide)).1

end ShopifyRichtext
